import Mathlib

/-!
# Shallow embedding of `src/group.py`

The repository consists of a single Python class `Group` that validates the
four group axioms at construction time and offers query operations afterwards.

Modelling decisions:
* The carrier `set(elems)` is modelled as the deduplicated list `elems.dedup`:
  a list of distinct elements in some iteration order (Python set iteration
  order is unspecified; every theorem below is order-agnostic unless the claim
  itself speaks about "first found").
* The user-supplied binary operation is a Lean function `E → E → E`; the
  spec assumes it pure, deterministic and total, which a Lean function is by
  construction.  The arity / callability check of `__init__` is subsumed by
  the type.
* `raise` is modelled by `Except String`, carrying the exact message of the
  source.  The `StopIteration` raised by an exhausted `next` in `inverse` is
  the error value `"StopIteration"`.
-/

universe u

namespace PyGroup

/-- The state of a constructed `Group`: the carrier set `_elems` (as the list
that set iteration yields, duplicates already collapsed), the operation `op`,
and the cached identity `e`. -/
structure Group (E : Type u) where
  elems : List E
  op : E → E → E
  e : E

variable {E : Type u} [DecidableEq E]

/-- `any(op(*ab) not in self._elems for ab in product(self._elems, repeat=2))`:
the closure check of `Group.__init__` fails. -/
def closure_fails (elems : List E) (op : E → E → E) : Bool :=
  elems.any fun a => elems.any fun b => !(decide (op a b ∈ elems))

/-- `is_assoc = lambda x, y, z: op(op(x, y), z) == op(x, op(y, z))`. -/
def is_assoc (op : E → E → E) (x y z : E) : Bool :=
  decide (op (op x y) z = op x (op y z))

/-- `any(not is_assoc(*abc) for abc in product(self._elems, repeat=3))`:
the associativity check of `Group.__init__` fails. -/
def assoc_fails (elems : List E) (op : E → E → E) : Bool :=
  elems.any fun a => elems.any fun b => elems.any fun c => !(is_assoc op a b c)

/-- `all(op(e, a) == op(a, e) == a for a in self._elems)`: the body of the
identity search.  Python chained comparison: `op(e,a) == op(a,e)` and
`op(a,e) == a`. -/
def is_identity (elems : List E) (op : E → E → E) (e : E) : Bool :=
  elems.all fun a => decide (op e a = op a e) && decide (op a e = a)

/-- `has_inverse = lambda x: any(op(x, a) == self.e for a in self._elems)`:
the right-inverse test used by the inverse check. -/
def has_inverse (elems : List E) (op : E → E → E) (e x : E) : Bool :=
  elems.any fun a => decide (op x a = e)

/-- `any(not has_inverse(a) for a in self._elems)`: the inverse check of
`Group.__init__` fails. -/
def inverse_fails (elems : List E) (op : E → E → E) (e : E) : Bool :=
  elems.any fun a => !(has_inverse elems op e a)

/-- `Group.__init__(self, elems, op)`: coerce `elems` to a set, then run the
closure, associativity, identity and inverse checks in that order, caching the
first identity candidate found; each failure raises with the source's
message. -/
def mkGroup (elems0 : List E) (op : E → E → E) : Except String (Group E) :=
  if closure_fails elems0.dedup op then
    .error "the closure property is not satisfied"
  else if assoc_fails elems0.dedup op then
    .error "the associativity property is not satisfied"
  else
    match elems0.dedup.find? (is_identity elems0.dedup op) with
    | none => .error "the identity property is not satisfied"
    | some e =>
      if inverse_fails elems0.dedup op e then
        .error "the inverse property is not satisfied"
      else
        .ok ⟨elems0.dedup, op, e⟩

/-- The `identity` property: returns the cached `self.e`. -/
def Group.identity (G : Group E) : E := G.e

/-- `__contains__`: `elem in self._elems`. -/
def Group.mem (G : Group E) (elem : E) : Bool := decide (elem ∈ G.elems)

/-- `__len__`: `len(self._elems)` (the carrier list is duplicate-free). -/
def Group.size (G : Group E) : Nat := G.elems.length

/-- `__lt__` against another Group: `self._elems < other.elems`, Python's
proper-subset comparison of sets: every element of `self` is in `other` and
some element of `other` is missing from `self`. -/
def Group.lt (G : Group E) (other : Group E) : Bool :=
  (G.elems.all fun x => decide (x ∈ other.elems)) &&
    (other.elems.any fun x => !(decide (x ∈ G.elems)))

/-- `operate(self, *elems)`: reject any non-member argument, then
`reduce(self.op, elems)` — the left fold `op(...op(op(e1,e2),e3)...,en)`;
`reduce` on an empty tuple raises a `TypeError`. -/
def Group.operate (G : Group E) (args : List E) : Except String E :=
  if args.any fun elem => !(decide (elem ∈ G.elems)) then
    .error "all elements must be members of the group"
  else
    match args with
    | [] => .error "reduce() of empty iterable with no initial value"
    | x :: xs => .ok (xs.foldl G.op x)

/-- `inverse(self, elem)`: reject a non-member, then
`next(a for a in self._elems if self.op(a, elem) == self.e)` — the first
element of the carrier (in iteration order) that is a left inverse of `elem`;
an exhausted generator raises `StopIteration`. -/
def Group.inverse (G : Group E) (elem : E) : Except String E :=
  if !(decide (elem ∈ G.elems)) then
    .error "the element provided is not a member of the group"
  else
    match G.elems.find? (fun a => decide (G.op a elem = G.e)) with
    | some a => .ok a
    | none => .error "StopIteration"

/-- `is_abelian(self)`: `all(self.op(a, b) == self.op(b, a) ...)` over all
ordered pairs. -/
def Group.is_abelian (G : Group E) : Bool :=
  G.elems.all fun a => G.elems.all fun b => decide (G.op a b = G.op b a)

/-! ## Facts extracted from a successful construction -/

/-- A `List.any` that came out `false` refutes its predicate on every member. -/
theorem any_eq_false_forall {α : Type u} {l : List α} {p : α → Bool}
    (h : l.any p = false) : ∀ x ∈ l, p x = false := by
  intro x hx
  by_contra hne
  rw [Bool.not_eq_false] at hne
  rw [List.any_eq_true.mpr ⟨x, hx, hne⟩] at h
  cases h

/-- Unfolding a successful `mkGroup`: the stored fields and the outcome of
each construction-time check. -/
theorem mkGroup_ok_spec (elems0 : List E) (op : E → E → E) (G : Group E)
    (h : mkGroup elems0 op = .ok G) :
    G.elems = elems0.dedup ∧ G.op = op ∧
      closure_fails G.elems G.op = false ∧
      assoc_fails G.elems G.op = false ∧
      G.elems.find? (is_identity G.elems G.op) = some G.e ∧
      inverse_fails G.elems G.op G.e = false := by
  unfold mkGroup at h
  split at h
  · cases h
  · split at h
    · cases h
    · split at h
      · cases h
      · rename_i hfind
        split at h
        · cases h
        · rename_i hinv
          cases h
          refine ⟨rfl, rfl, ?_, ?_, hfind, ?_⟩
          · simpa using (by assumption : ¬ closure_fails elems0.dedup op = true)
          · simpa using (by assumption : ¬ assoc_fails elems0.dedup op = true)
          · simpa using hinv

/-- Closure, in propositional form, holds on the carrier of any successfully
constructed group. -/
theorem closure_of_ok {elems0 : List E} {op : E → E → E} {G : Group E}
    (h : mkGroup elems0 op = .ok G) :
    ∀ a ∈ G.elems, ∀ b ∈ G.elems, G.op a b ∈ G.elems := by
  obtain ⟨-, -, hcl, -, -, -⟩ := mkGroup_ok_spec elems0 op G h
  intro a ha b hb
  have h1 := any_eq_false_forall hcl a ha
  have h2 := any_eq_false_forall h1 b hb
  simpa using h2

/-- Associativity, in propositional form, holds on the carrier of any
successfully constructed group. -/
theorem assoc_of_ok {elems0 : List E} {op : E → E → E} {G : Group E}
    (h : mkGroup elems0 op = .ok G) :
    ∀ a ∈ G.elems, ∀ b ∈ G.elems, ∀ c ∈ G.elems,
      G.op (G.op a b) c = G.op a (G.op b c) := by
  obtain ⟨-, -, -, has, -, -⟩ := mkGroup_ok_spec elems0 op G h
  intro a ha b hb c hc
  have h1 := any_eq_false_forall has a ha
  have h2 := any_eq_false_forall h1 b hb
  have h3 := any_eq_false_forall h2 c hc
  simpa [is_assoc] using h3

/-- The cached identity is a member of the carrier. -/
theorem identity_mem_of_ok {elems0 : List E} {op : E → E → E} {G : Group E}
    (h : mkGroup elems0 op = .ok G) : G.e ∈ G.elems := by
  obtain ⟨-, -, -, -, hfind, -⟩ := mkGroup_ok_spec elems0 op G h
  exact List.mem_of_find?_eq_some hfind

/-- The cached identity acts as a two-sided identity on every member. -/
theorem identity_spec_of_ok {elems0 : List E} {op : E → E → E} {G : Group E}
    (h : mkGroup elems0 op = .ok G) :
    ∀ a ∈ G.elems, G.op G.e a = G.op a G.e ∧ G.op a G.e = a := by
  obtain ⟨-, -, -, -, hfind, -⟩ := mkGroup_ok_spec elems0 op G h
  have hid : is_identity G.elems G.op G.e = true := List.find?_some hfind
  intro a ha
  have := List.all_eq_true.mp hid a ha
  simpa using this

/-- Every member of a successfully constructed group has a right inverse in
the carrier (this is literally what the construction-time inverse check
verified). -/
theorem rinv_of_ok {elems0 : List E} {op : E → E → E} {G : Group E}
    (h : mkGroup elems0 op = .ok G) :
    ∀ a ∈ G.elems, ∃ b ∈ G.elems, G.op a b = G.e := by
  obtain ⟨-, -, -, -, -, hinv⟩ := mkGroup_ok_spec elems0 op G h
  intro a ha
  have h1 := any_eq_false_forall hinv a ha
  rw [Bool.not_eq_false'] at h1
  obtain ⟨b, hb, hab⟩ := List.any_eq_true.mp h1
  exact ⟨b, hb, by simpa using hab⟩

/-! ## Left inverses from the construction-time checks

The constructor only checks right inverses (`op(a, b) == e`), while
`inverse` searches for a left inverse (`op(a, elem) == e`).  The checked
axioms nevertheless force every right inverse to be a left inverse. -/

omit [DecidableEq E] in
/-- In a carrier closed under an associative `op` with a right identity and
right inverses, every member has a left inverse: if `op a b = e` then also
`op b a = e`. -/
theorem left_inv_of_axioms (S : List E) (op : E → E → E) (e : E)
    (hcl : ∀ a ∈ S, ∀ b ∈ S, op a b ∈ S)
    (has : ∀ a ∈ S, ∀ b ∈ S, ∀ c ∈ S, op (op a b) c = op a (op b c))
    (hid : ∀ a ∈ S, op a e = a)
    (hinv : ∀ a ∈ S, ∃ b ∈ S, op a b = e)
    (a : E) (ha : a ∈ S) : ∃ b ∈ S, op b a = e := by
  obtain ⟨b, hb, hab⟩ := hinv a ha
  obtain ⟨c, hc, hbc⟩ := hinv b hb
  have hba : op b a ∈ S := hcl b hb a ha
  refine ⟨b, hb, ?_⟩
  calc op b a = op (op b a) e := (hid _ hba).symm
    _ = op (op b a) (op b c) := by rw [hbc]
    _ = op (op (op b a) b) c := (has _ hba b hb c hc).symm
    _ = op (op b (op a b)) c := by rw [has b hb a ha b hb]
    _ = op (op b e) c := by rw [hab]
    _ = op b c := by rw [hid b hb]
    _ = e := hbc

/-- On a successfully constructed group, `inverse` applied to a member takes
the `next(...)` branch and returns a member `b` with `op(b, elem) == e`. -/
theorem inverse_ok_spec {elems0 : List E} {op : E → E → E} {G : Group E}
    (h : mkGroup elems0 op = .ok G) (elem : E) (he : elem ∈ G.elems) :
    ∃ b, G.inverse elem = .ok b ∧ b ∈ G.elems ∧ G.op b elem = G.e ∧
      G.elems.find? (fun a => decide (G.op a elem = G.e)) = some b := by
  have hid : ∀ a ∈ G.elems, G.op a G.e = a := fun a ha =>
    (identity_spec_of_ok h a ha).2
  have hex : ∃ b ∈ G.elems, G.op b elem = G.e :=
    left_inv_of_axioms G.elems G.op G.e (closure_of_ok h) (assoc_of_ok h)
      hid (rinv_of_ok h) elem he
  obtain ⟨b0, hb0, hb0e⟩ := hex
  have hsome : (G.elems.find? fun a => decide (G.op a elem = G.e)).isSome := by
    rw [List.find?_isSome]
    exact ⟨b0, hb0, by simpa using hb0e⟩
  obtain ⟨b, hb⟩ := Option.isSome_iff_exists.mp hsome
  refine ⟨b, ?_, List.mem_of_find?_eq_some hb,
    by simpa using List.find?_some hb, hb⟩
  have hcond : ¬ ((!(decide (elem ∈ G.elems))) = true) := by simp [he]
  unfold Group.inverse
  rw [if_neg hcond, hb]

/-! ## Method calls as state transformers

The Python methods receive `self` and could in principle assign to its
attributes; none of the post-construction methods of `Group` does.  To state
the frame properties we model each method call as a step returning the
method's result together with the group state afterwards, translated from the
method bodies (which contain no assignment to `self`). -/

/-- The value a method call returns. -/
inductive QueryResult (E : Type u) where
  | boolR (b : Bool)
  | natR (n : Nat)
  | listR (l : List E)
  | exR (r : Except String E)

/-- One post-construction method call on a `Group`: membership test
(`__contains__`), size (`__len__`), iteration (`__iter__`, yielding the
carrier), comparison (`__lt__`), string conversion (`__repr__`/`__str__`,
exposing the carrier), `operate`, `inverse`, `is_abelian`. -/
inductive Query (E : Type u) where
  | memQ (x : E)
  | sizeQ
  | iterQ
  | cmpQ (other : Group E)
  | strQ
  | operateQ (args : List E)
  | inverseQ (x : E)
  | abelianQ

/-- Run one method call: its result paired with the group state afterwards.
Every branch returns `G` unchanged because no method body assigns to
`self._elems`, `self.op` or `self.e` (the op name rendered by
`__repr__`/`__str__` is not representable; `strQ` returns the carrier the
text also exposes). -/
def runQuery (G : Group E) : Query E → QueryResult E × Group E
  | .memQ x => (.boolR (G.mem x), G)
  | .sizeQ => (.natR G.size, G)
  | .iterQ => (.listR G.elems, G)
  | .cmpQ other => (.boolR (G.lt other), G)
  | .strQ => (.listR G.elems, G)
  | .operateQ args => (.exR (G.operate args), G)
  | .inverseQ x => (.exR (G.inverse x), G)
  | .abelianQ => (.boolR G.is_abelian, G)

/-- The canonical example operation: `(a + b) mod 4` on naturals. -/
def add4 : Nat → Nat → Nat := fun a b => (a + b) % 4

/-- The group ℤ/4ℤ produced by `Group({0,1,2,3}, add4)`. -/
def g4 : Group Nat := ⟨[0, 1, 2, 3], add4, 0⟩

/-- A second operation on `{0,1,2,3}`: bitwise xor, giving the Klein
four-group on the same carrier. -/
def xor4 : Nat → Nat → Nat := fun a b => a ^^^ b

/-- The group produced by `Group({0,1,2,3}, xor4)`. -/
def gK : Group Nat := ⟨[0, 1, 2, 3], xor4, 0⟩

omit [DecidableEq E] in
/-- A left fold of the operation over members of a closed carrier stays in
the carrier. -/
theorem foldl_mem (S : List E) (op : E → E → E)
    (hcl : ∀ a ∈ S, ∀ b ∈ S, op a b ∈ S) :
    ∀ (xs : List E) (x : E), x ∈ S → (∀ y ∈ xs, y ∈ S) →
      xs.foldl op x ∈ S := by
  intro xs
  induction xs with
  | nil => intro x hx _; simpa using hx
  | cons y ys ih =>
    intro x hx hmem
    rw [List.foldl_cons]
    exact ih (op x y) (hcl x hx y (hmem y (by simp)))
      (fun z hz => hmem z (by simp [hz]))

/-! ## The claims -/

/-- C1: for every validly constructed Group (the operation being pure and
deterministic by construction in this embedding) and every member `elem`, the
search in `inverse(elem)` finds a qualifying candidate, so the exhaustion
(`StopIteration`) branch is unreachable: the call returns normally. -/
theorem claim_C1_inverse_search_succeeds (elems0 : List E) (op : E → E → E)
    (G : Group E) (h : mkGroup elems0 op = .ok G) (elem : E)
    (he : elem ∈ G.elems) :
    ∃ b, G.inverse elem = .ok b := by
  obtain ⟨b, hb, -, -, -⟩ := inverse_ok_spec h elem he
  exact ⟨b, hb⟩

/-- Witness for C1 at the mod-4 group and element `1`. -/
theorem claim_C1_witness :
    mkGroup [0, 1, 2, 3] add4 = .ok g4 ∧ 1 ∈ g4.elems ∧
      ∃ b, g4.inverse 1 = .ok b :=
  ⟨rfl, by decide,
    claim_C1_inverse_search_succeeds [0, 1, 2, 3] add4 g4 (by rfl) 1 (by decide)⟩

/-- C3: for every validly constructed Group, the cached identity `e`
satisfies `op(e, a) == op(a, e) == a` for every element `a` of the
carrier. -/
theorem claim_C3_identity_two_sided (elems0 : List E) (op : E → E → E)
    (G : Group E) (h : mkGroup elems0 op = .ok G) (a : E)
    (ha : a ∈ G.elems) :
    G.op G.identity a = a ∧ G.op a G.identity = a := by
  obtain ⟨h1, h2⟩ := identity_spec_of_ok h a ha
  exact ⟨h1.trans h2, h2⟩

/-- Witness for C3 at the mod-4 group and element `2`. -/
theorem claim_C3_witness :
    mkGroup [0, 1, 2, 3] add4 = .ok g4 ∧ 2 ∈ g4.elems ∧
      (g4.op g4.identity 2 = 2 ∧ g4.op 2 g4.identity = 2) :=
  ⟨rfl, by decide,
    claim_C3_identity_two_sided [0, 1, 2, 3] add4 g4 (by rfl) 2 (by decide)⟩

/-- C4: for every validly constructed Group and member `elem`, `inverse(elem)`
returns an element `b` of the carrier with `op(b, elem) == identity` — a left
inverse — and `b` is the first such element in set-iteration order. -/
theorem claim_C4_inverse_left_inverse (elems0 : List E) (op : E → E → E)
    (G : Group E) (h : mkGroup elems0 op = .ok G) (elem : E)
    (he : elem ∈ G.elems) :
    ∃ b, G.inverse elem = .ok b ∧ b ∈ G.elems ∧ G.op b elem = G.identity ∧
      G.elems.find? (fun a => decide (G.op a elem = G.e)) = some b :=
  inverse_ok_spec h elem he

/-- Witness for C4 at the mod-4 group and element `3`. -/
theorem claim_C4_witness :
    mkGroup [0, 1, 2, 3] add4 = .ok g4 ∧ 3 ∈ g4.elems ∧
      ∃ b, g4.inverse 3 = .ok b ∧ b ∈ g4.elems ∧
        g4.op b 3 = g4.identity ∧
        g4.elems.find? (fun a => decide (g4.op a 3 = g4.e)) = some b :=
  ⟨rfl, by decide,
    claim_C4_inverse_left_inverse [0, 1, 2, 3] add4 g4 (by rfl) 3 (by decide)⟩

/-- C5: for every validly constructed Group and non-empty argument list of
members, `operate` returns the left fold of the operation in the order given,
and the result is a member of the carrier (by closure). -/
theorem claim_C5_operate_left_fold (elems0 : List E) (op : E → E → E)
    (G : Group E) (h : mkGroup elems0 op = .ok G) (x : E) (xs : List E)
    (hmem : ∀ y ∈ x :: xs, y ∈ G.elems) :
    G.operate (x :: xs) = .ok (xs.foldl G.op x) ∧
      xs.foldl G.op x ∈ G.elems := by
  have hany : ((x :: xs).any fun elem => !(decide (elem ∈ G.elems))) = false := by
    by_contra hne
    rw [Bool.not_eq_false] at hne
    obtain ⟨y, hy, hpy⟩ := List.any_eq_true.mp hne
    rw [Bool.not_eq_true', decide_eq_false_iff_not] at hpy
    exact hpy (hmem y hy)
  constructor
  · unfold Group.operate
    rw [if_neg (by simp [hany])]
  · exact foldl_mem G.elems G.op (closure_of_ok h) xs x (hmem x (by simp))
      (fun y hy => hmem y (by simp [hy]))

/-- Witness for C5 at the mod-4 group and arguments `(1, 2, 3)`:
`op(op(1,2),3) = 2`. -/
theorem claim_C5_witness :
    mkGroup [0, 1, 2, 3] add4 = .ok g4 ∧ (∀ y ∈ [1, 2, 3], y ∈ g4.elems) ∧
      (g4.operate [1, 2, 3] = .ok ([2, 3].foldl g4.op 1) ∧
        [2, 3].foldl g4.op 1 ∈ g4.elems) :=
  ⟨rfl, by decide,
    claim_C5_operate_left_fold [0, 1, 2, 3] add4 g4 (by rfl) 1 [2, 3] (by decide)⟩

/-- If every element of `B`'s carrier lies in `A`'s carrier, `A.lt B` is
`false` (the strict part of the proper-subset test fails). -/
theorem lt_eq_false_of_superset (A B : Group E)
    (hs : ∀ x ∈ B.elems, x ∈ A.elems) : A.lt B = false := by
  have hany : (B.elems.any fun x => !(decide (x ∈ A.elems))) = false := by
    by_contra hne
    rw [Bool.not_eq_false] at hne
    obtain ⟨x, hx, hpx⟩ := List.any_eq_true.mp hne
    rw [Bool.not_eq_true', decide_eq_false_iff_not] at hpx
    exact hpx (hs x hx)
  rw [Group.lt, hany, Bool.and_false]

/-- C2: two validly constructed Groups with identical element sets compare
equal under the ordering-derived equality — equal iff neither is strictly
less than the other — regardless of whether their operations agree. -/
theorem claim_C2_set_only_equality (e1 e2 : List E) (op1 op2 : E → E → E)
    (G H : Group E) (h1 : mkGroup e1 op1 = .ok G)
    (h2 : mkGroup e2 op2 = .ok H)
    (hset : ∀ x, x ∈ G.elems ↔ x ∈ H.elems) :
    (!(G.lt H) && !(H.lt G)) = true := by
  rw [lt_eq_false_of_superset G H (fun x hx => (hset x).mpr hx),
    lt_eq_false_of_superset H G (fun x hx => (hset x).mp hx)]
  rfl

/-- Witness for C2: the mod-4 group and the xor group share the carrier
`{0,1,2,3}` but have different operations. -/
theorem claim_C2_witness :
    (mkGroup [0, 1, 2, 3] add4 = .ok g4 ∧
      mkGroup [0, 1, 2, 3] xor4 = .ok gK) ∧
      (!(g4.lt gK) && !(gK.lt g4)) = true :=
  ⟨⟨by rfl, by rfl⟩,
    claim_C2_set_only_equality [0, 1, 2, 3] [0, 1, 2, 3] add4 xor4 g4 gK
      (by rfl) (by rfl) (fun x => Iff.rfl)⟩

/-- C6: on a validly constructed Group, `operate` produces the membership
`ValueError` exactly when some argument is outside the carrier, and `inverse`
produces its membership `ValueError` exactly when its argument is outside the
carrier; in either error case the group state afterwards is unchanged. -/
theorem claim_C6_membership_errors (elems0 : List E) (op : E → E → E)
    (G : Group E) (h : mkGroup elems0 op = .ok G) (args : List E) (elem : E) :
    (G.operate args = .error "all elements must be members of the group" ↔
      ∃ y ∈ args, y ∉ G.elems) ∧
    (G.inverse elem = .error "the element provided is not a member of the group" ↔
      elem ∉ G.elems) ∧
    (runQuery G (.operateQ args)).2 = G ∧
    (runQuery G (.inverseQ elem)).2 = G := by
  refine ⟨?_, ?_, rfl, rfl⟩
  · by_cases hc : (args.any fun y => !(decide (y ∈ G.elems))) = true
    · have hop : G.operate args = .error "all elements must be members of the group" := by
        unfold Group.operate
        rw [if_pos hc]
      obtain ⟨y, hy, hpy⟩ := List.any_eq_true.mp hc
      rw [Bool.not_eq_true'] at hpy
      exact iff_of_true hop ⟨y, hy, by simpa using hpy⟩
    · have hok : ∀ y ∈ args, y ∈ G.elems := by
        intro y hy
        have hcf : (args.any fun z => !(decide (z ∈ G.elems))) = false := by
          rw [Bool.eq_false_iff]
          exact hc
        have := any_eq_false_forall hcf y hy
        simpa using this
      refine iff_of_false ?_ (by push_neg; exact hok)
      unfold Group.operate
      rw [if_neg hc]
      cases args with
      | nil => simp
      | cons x xs => simp
  · by_cases he : elem ∈ G.elems
    · refine iff_of_false ?_ (by simpa using he)
      have hcond : ¬ ((!(decide (elem ∈ G.elems))) = true) := by simp [he]
      unfold Group.inverse
      rw [if_neg hcond]
      cases hfind : G.elems.find? fun a => decide (G.op a elem = G.e) with
      | none => simp
      | some b => simp
    · have : G.inverse elem = .error "the element provided is not a member of the group" := by
        unfold Group.inverse
        rw [if_pos (by simpa using he)]
      exact iff_of_true this he

/-- Witness for C6 at the mod-4 group, arguments `(1, 9)` and element `7`
(both outside tests exercise the error branches; the theorem's two
equivalences and frame equations are instantiated directly). -/
theorem claim_C6_witness :
    mkGroup [0, 1, 2, 3] add4 = .ok g4 ∧
      ((g4.operate [1, 9] = .error "all elements must be members of the group" ↔
          ∃ y ∈ [1, 9], y ∉ g4.elems) ∧
        (g4.inverse 7 = .error "the element provided is not a member of the group" ↔
          7 ∉ g4.elems) ∧
        (runQuery g4 (.operateQ [1, 9])).2 = g4 ∧
        (runQuery g4 (.inverseQ 7)).2 = g4) :=
  ⟨by rfl, claim_C6_membership_errors [0, 1, 2, 3] add4 g4 (by rfl) [1, 9] 7⟩

/-- C7: whenever the operation sends some ordered pair of members outside the
element set, construction fails with the closure error. -/
theorem claim_C7_closure_failure (elems0 : List E) (op : E → E → E) (a b : E)
    (ha : a ∈ elems0) (hb : b ∈ elems0) (hout : op a b ∉ elems0) :
    mkGroup elems0 op = .error "the closure property is not satisfied" := by
  have hfail : closure_fails elems0.dedup op = true := by
    rw [closure_fails, List.any_eq_true]
    refine ⟨a, List.mem_dedup.mpr ha, ?_⟩
    rw [List.any_eq_true]
    exact ⟨b, List.mem_dedup.mpr hb, by simp [List.mem_dedup, hout]⟩
  unfold mkGroup
  rw [if_pos hfail]

/-- Witness for C7: elements `{0, 1}` with plain addition fail closure at the
pair `(1, 1)` since `1 + 1 = 2 ∉ {0, 1}`. -/
theorem claim_C7_witness :
    (1 ∈ [0, 1] ∧ 1 ∈ [0, 1] ∧ (1 + 1 : Nat) ∉ [0, 1]) ∧
      mkGroup [0, 1] (fun a b : Nat => a + b) =
        .error "the closure property is not satisfied" :=
  ⟨by decide,
    claim_C7_closure_failure [0, 1] (fun a b => a + b) 1 1 (by decide)
      (by decide) (by decide)⟩

/-- C8: the canonical example — `Group({0,1,2,3}, (a+b) mod 4)` constructs
successfully, its identity is `0`, `is_abelian()` is true, `inverse(1)` is
`3` and `inverse(2)` is `2`. -/
theorem claim_C8_canonical_mod4 :
    mkGroup [0, 1, 2, 3] add4 = .ok g4 ∧ g4.identity = 0 ∧
      g4.is_abelian = true ∧ g4.inverse 1 = .ok 3 ∧ g4.inverse 2 = .ok 2 :=
  ⟨by rfl, by rfl, by rfl, by rfl, by rfl⟩

/-- C9: no sequence of post-construction method calls changes the carrier
set, the operation, or the cached identity of a validly constructed
Group. -/
theorem claim_C9_queries_preserve_state (elems0 : List E) (op : E → E → E)
    (G : Group E) (h : mkGroup elems0 op = .ok G) (qs : List (Query E)) :
    (qs.foldl (fun g q => (runQuery g q).2) G).elems = G.elems ∧
      (qs.foldl (fun g q => (runQuery g q).2) G).op = G.op ∧
      (qs.foldl (fun g q => (runQuery g q).2) G).e = G.e := by
  have hfix : qs.foldl (fun g q => (runQuery g q).2) G = G := by
    induction qs with
    | nil => rfl
    | cons q qs ih =>
      rw [List.foldl_cons]
      have hstep : (runQuery G q).2 = G := by cases q <;> rfl
      rw [hstep]
      exact ih
  rw [hfix]
  exact ⟨rfl, rfl, rfl⟩

/-- Witness for C9 at the mod-4 group with a sequence exercising every kind
of method call. -/
theorem claim_C9_witness :
    mkGroup [0, 1, 2, 3] add4 = .ok g4 ∧
      (([Query.memQ 2, Query.sizeQ, Query.iterQ, Query.cmpQ gK, Query.strQ,
          Query.operateQ [1, 2], Query.inverseQ 1, Query.abelianQ].foldl
            (fun g q => (runQuery g q).2) g4).elems = g4.elems ∧
        ([Query.memQ 2, Query.sizeQ, Query.iterQ, Query.cmpQ gK, Query.strQ,
          Query.operateQ [1, 2], Query.inverseQ 1, Query.abelianQ].foldl
            (fun g q => (runQuery g q).2) g4).op = g4.op ∧
        ([Query.memQ 2, Query.sizeQ, Query.iterQ, Query.cmpQ gK, Query.strQ,
          Query.operateQ [1, 2], Query.inverseQ 1, Query.abelianQ].foldl
            (fun g q => (runQuery g q).2) g4).e = g4.e) :=
  ⟨by rfl,
    claim_C9_queries_preserve_state [0, 1, 2, 3] add4 g4 (by rfl)
      [Query.memQ 2, Query.sizeQ, Query.iterQ, Query.cmpQ gK, Query.strQ,
        Query.operateQ [1, 2], Query.inverseQ 1, Query.abelianQ]⟩

/-- C10: construction from an empty element iterable always fails with the
identity error, whatever the two-argument operation: the closure and
associativity checks pass vacuously and the identity search finds no
candidate. -/
theorem claim_C10_empty_fails_identity (op : E → E → E) :
    mkGroup ([] : List E) op = .error "the identity property is not satisfied" ∧
      closure_fails (List.dedup ([] : List E)) op = false ∧
      assoc_fails (List.dedup ([] : List E)) op = false :=
  ⟨rfl, rfl, rfl⟩

end PyGroup
